import Mathlib

/-!
Verification of the NYD moderation bot core (rule storage, match engine,
moderation decision, watchman scan, persistence codec), shallowly embedded
from the JavaScript source.  Message text is modelled as a list of
characters; JS `String.prototype.includes` becomes `strIncludes`, JS
`Set`/`Map` become duplicate-free lists with insertion-order semantics
(`jsSetInsert`, `jsMapInsert`), and the asynchronous messaging boundary
(permissions, delete success, history fetch) becomes an explicit
environment record.
-/

namespace NYD

/-- Message text: JS strings as lists of characters. -/
abbrev Str := List Char

/-- JS `a.startsWith(b)`-style check: `leadsWith needle hay` is true when
`needle` occurs at the front of `hay`. -/
def leadsWith : Str → Str → Bool
  | [], _ => true
  | _ :: _, [] => false
  | a :: as, b :: bs => a == b && leadsWith as bs

/-- JS `hay.includes(needle)`: literal substring containment. -/
def strIncludes : Str → Str → Bool
  | [], needle => leadsWith needle []
  | c :: t, needle => leadsWith needle (c :: t) || strIncludes t needle

/-- JS `s.toLowerCase()` (character-wise, as in the source's usage on ASCII
partials and message text). -/
def lowerStr (s : Str) : Str := s.map Char.toLower

/-- Convenience injection from Lean string literals. -/
def strOf (s : String) : Str := s.data

/-- The literal `"http"` used by the pre-filter in `checkAndDeleteMessage`
and `checkMultipleMessages`. -/
def httpChars : Str := strOf "http"

/-- JS `set.add(x)`: insertion-ordered, no duplicates. -/
def jsSetInsert {α : Type} [DecidableEq α] (s : List α) (x : α) : List α :=
  if x ∈ s then s else s ++ [x]

/-- JS `new Set(iterable)`: insert elements left to right. -/
def jsSetOfList {α : Type} [DecidableEq α] (l : List α) : List α :=
  l.foldl jsSetInsert []

/-- JS `map.get(k)`: first (unique) binding of `k` in an insertion-ordered
association list. -/
def mget {α : Type} (m : List (String × α)) (k : String) : Option α :=
  match m with
  | [] => none
  | (k2, v) :: t => if k2 = k then some v else mget t k

/-- Replace the value bound to `k`, keeping its position (JS `map.set` on an
existing key, or in-place mutation of the stored object). -/
def mapUpdate {α : Type} (m : List (String × α)) (k : String) (v : α) :
    List (String × α) :=
  m.map (fun e => if e.1 = k then (k, v) else e)

/-- JS `map.set(k, v)`: update in place when present, append when absent. -/
def jsMapInsert {α : Type} (m : List (String × α)) (k : String) (v : α) :
    List (String × α) :=
  if (mget m k).isSome then mapUpdate m k v else m ++ [(k, v)]

/-- JS `new Map(entries)`: insert entries left to right. -/
def jsMapOfList {α : Type} (l : List (String × α)) : List (String × α) :=
  l.foldl (fun m e => jsMapInsert m e.1 e.2) []

/-- Per-guild allowlist entry: `{ users: Set, roles: Set }`. -/
structure AllowEntry where
  users : List String
  roles : List String
deriving DecidableEq, Repr

/-- In-memory rule store: `blockRules`, `globalBlockRules`, `allowLists`,
`watchmanChannels` from the source's module-level state. -/
structure Store where
  blockRules : List (String × List Str)
  globalBlockRules : List (String × List Str)
  allowLists : List (String × AllowEntry)
  watchmanChannels : List String
deriving DecidableEq, Repr

/-- An inbound message event as consumed by the `messageCreate` handler. -/
structure Msg where
  id : String
  authorIsBot : Bool
  authorId : String
  roleIds : List String
  content : Str
  guildId : Option String
  channelId : String
deriving DecidableEq, Repr

/-- The external messaging boundary: delete permission, per-message delete
success, and the channel history returned by `channel.messages.fetch`
(`fetchOk = false` models the fetch throwing). -/
structure Env where
  canManage : Bool
  deleteSucceeds : String → Bool
  fetchOk : Bool
  window : List Msg

/-- Terminal outcome of the moderation decision for one inbound event. -/
inductive Outcome where
  | skipped : Outcome
  | deleted : String → Outcome
deriving DecidableEq, Repr

/-- MatchEngine, as inlined in `checkAndDeleteMessage`: empty-rule-set and
"http" pre-filter, then first rule found as a substring of the lowercased
text wins (rule-set iteration order). -/
def matchEngine (text : Str) (ruleSet : List Str) : Option Str :=
  if ruleSet.isEmpty then none
  else
    let content := lowerStr text
    if !strIncludes content httpChars then none
    else ruleSet.find? (fun f => strIncludes content f)

/-- `checkAndDeleteMessage(message, partials)`: returns whether the message
was deleted, paired with the ids for which a delete request was emitted.
The first matching rule triggers one delete attempt; on failure the
function returns `false` without trying further rules. -/
def checkAndDeleteMessage (env : Env) (m : Msg) (frags : List Str) :
    Bool × List String :=
  if frags.isEmpty then (false, [])
  else
    let content := lowerStr m.content
    if !strIncludes content httpChars then (false, [])
    else if !env.canManage then (false, [])
    else
      match frags.find? (fun f => strIncludes content f) with
      | none => (false, [])
      | some _ =>
        if env.deleteSucceeds m.id then (true, [m.id]) else (false, [m.id])

/-- Inner rule loop of `checkMultipleMessages`: each matching rule triggers
a delete attempt on the same message; success returns immediately, failure
is caught and the loop goes on to the next rule. -/
def tryFrags (env : Env) (mid : String) (content : Str) :
    List Str → Bool × List String
  | [] => (false, [])
  | f :: fs =>
    if strIncludes content f then
      if env.deleteSucceeds mid then (true, [mid])
      else
        let r := tryFrags env mid content fs
        (r.1, mid :: r.2)
    else tryFrags env mid content fs

/-- Outer message loop of `checkMultipleMessages`: skips bot-authored and
empty-content messages and those failing the "http" pre-filter or the
permission check, and stops the scan only when a delete succeeds. -/
def watchScan (env : Env) (frags : List Str) :
    List Msg → Option String × List String
  | [] => (none, [])
  | m :: rest =>
    if m.authorIsBot then watchScan env frags rest
    else if m.content.isEmpty then watchScan env frags rest
    else
      let content := lowerStr m.content
      if !strIncludes content httpChars then watchScan env frags rest
      else if !env.canManage then watchScan env frags rest
      else
        let r := tryFrags env m.id content frags
        if r.1 then (some m.id, r.2)
        else
          let rtail := watchScan env frags rest
          (rtail.1, r.2 ++ rtail.2)

/-- `checkMultipleMessages(channel, partials, limit = 6)`: fetch up to
`limit` recent messages and scan them; a failed fetch is caught and reported
as no deletion. Returns the id of the successfully deleted message (if any)
and all emitted delete requests. -/
def checkMultipleMessages (env : Env) (frags : List Str) (limit : Nat) :
    Option String × List String :=
  if frags.isEmpty then (none, [])
  else if !env.fetchOk then (none, [])
  else watchScan env frags (env.window.take limit)

/-- Allowlist test from the `messageCreate` handler: the guild has an
allowlist and the author's id is in its user set or some author role id is
in its role set. -/
def isAllowlisted (st : Store) (g : String) (m : Msg) : Bool :=
  match mget st.allowLists g with
  | none => false
  | some a =>
    a.users.contains m.authorId || m.roleIds.any (fun r => a.roles.contains r)

/-- Normal-mode branch of `messageCreate`: channel rules first (a successful
deletion returns), then global rules. -/
def normalMode (st : Store) (env : Env) (m : Msg) (g : String) :
    Outcome × List String :=
  let r1 :=
    match mget st.blockRules m.channelId with
    | some frags => checkAndDeleteMessage env m frags
    | none => (false, [])
  if r1.1 then (Outcome.deleted m.id, r1.2)
  else
    match mget st.globalBlockRules g with
    | some frags =>
      let r2 := checkAndDeleteMessage env m frags
      (if r2.1 then Outcome.deleted m.id else Outcome.skipped, r1.2 ++ r2.2)
    | none => (Outcome.skipped, r1.2)

/-- Watchman-mode branch of `messageCreate`: window scan against channel
rules first (a successful deletion returns), then against global rules. -/
def watchmanMode (st : Store) (env : Env) (m : Msg) (g : String) :
    Outcome × List String :=
  let r1 :=
    match mget st.blockRules m.channelId with
    | some frags => checkMultipleMessages env frags 6
    | none => (none, [])
  match r1.1 with
  | some i => (Outcome.deleted i, r1.2)
  | none =>
    match mget st.globalBlockRules g with
    | some frags =>
      let r2 := checkMultipleMessages env frags 6
      (match r2.1 with
       | some i => Outcome.deleted i
       | none => Outcome.skipped, r1.2 ++ r2.2)
    | none => (Outcome.skipped, r1.2)

/-- The `messageCreate` handler: ignore bot authors, unavailable content and
direct messages; allowlist exemption; then watchman or normal mode by
channel membership in `watchmanChannels`. -/
def handleMessage (st : Store) (env : Env) (m : Msg) : Outcome × List String :=
  if m.authorIsBot then (Outcome.skipped, [])
  else if m.content.isEmpty then (Outcome.skipped, [])
  else
    match m.guildId with
    | none => (Outcome.skipped, [])
    | some g =>
      if isAllowlisted st g m then (Outcome.skipped, [])
      else if st.watchmanChannels.contains m.channelId then
        watchmanMode st env m g
      else normalMode st env m g

/-- `ensureAllowlist()` from the command handler: creates an empty allowlist
entry for the guild when absent (JS `map.set` appends), then returns the
entry. -/
def ensureAllowlist (st : Store) (g : String) : Store × AllowEntry :=
  match mget st.allowLists g with
  | some a => (st, a)
  | none =>
    ({st with allowLists := st.allowLists ++ [(g, ⟨[], []⟩)]}, ⟨[], []⟩)

/-- Result of a mutating command: the new store, whether the target was
found (warning reply otherwise), and whether `autoSave` ran. -/
structure OpResult where
  store : Store
  found : Bool
  saved : Bool
deriving DecidableEq, Repr

/-- `/nyd block`: lowercase the partial, create the channel set if absent,
add, save. -/
def addChannelRule (st : Store) (cid : String) (fragRaw : Str) : Store :=
  let frag := lowerStr fragRaw
  match mget st.blockRules cid with
  | none => {st with blockRules := st.blockRules ++ [(cid, jsSetInsert [] frag)]}
  | some s => {st with blockRules := mapUpdate st.blockRules cid (jsSetInsert s frag)}

/-- `/nyd unblock`: warning (no mutation, no save) when the channel has no
rule set or the partial is absent; otherwise delete and save. -/
def removeChannelRule (st : Store) (cid : String) (fragRaw : Str) : OpResult :=
  let frag := lowerStr fragRaw
  match mget st.blockRules cid with
  | none => ⟨st, false, false⟩
  | some s =>
    if frag ∈ s then
      ⟨{st with blockRules := mapUpdate st.blockRules cid (s.erase frag)},
        true, true⟩
    else ⟨st, false, false⟩

/-- `/nyd unblock-global`: same semantics at guild scope. -/
def removeGlobalRule (st : Store) (g : String) (fragRaw : Str) : OpResult :=
  let frag := lowerStr fragRaw
  match mget st.globalBlockRules g with
  | none => ⟨st, false, false⟩
  | some s =>
    if frag ∈ s then
      ⟨{st with globalBlockRules := mapUpdate st.globalBlockRules g (s.erase frag)},
        true, true⟩
    else ⟨st, false, false⟩

/-- `/nyd remove-allow`: calls `ensureAllowlist()` first, then checks
membership; warning (no save) when the user is absent. -/
def disallowUser (st : Store) (g : String) (u : String) : OpResult :=
  let r := ensureAllowlist st g
  if r.2.users.contains u then
    ⟨{r.1 with allowLists :=
        mapUpdate r.1.allowLists g ⟨r.2.users.erase u, r.2.roles⟩},
      true, true⟩
  else ⟨r.1, false, false⟩

/-- `/nyd remove-allow-role`: symmetric to `disallowUser`. -/
def disallowRole (st : Store) (g : String) (rid : String) : OpResult :=
  let r := ensureAllowlist st g
  if r.2.roles.contains rid then
    ⟨{r.1 with allowLists :=
        mapUpdate r.1.allowLists g ⟨r.2.users, r.2.roles.erase rid⟩},
      true, true⟩
  else ⟨r.1, false, false⟩

/-- `/nyd list`: reads the channel's rule set (`undefined` rendered as
"None"), leaving the store untouched. -/
def listChannelRules (st : Store) (cid : String) : Store × List Str :=
  (st, (mget st.blockRules cid).getD [])

/-- `/nyd list-global`: reads the guild's global rule set, leaving the
store untouched. -/
def listGlobalRules (st : Store) (g : String) : Store × List Str :=
  (st, (mget st.globalBlockRules g).getD [])

/-- `/nyd list-allow`: calls `ensureAllowlist()` and renders its sets. -/
def listAllowlist (st : Store) (g : String) : Store × AllowEntry :=
  ensureAllowlist st g

/-- The six statistics of `DataManager.getDataStats`. -/
structure Stats where
  channelsWithRules : Nat
  serversWithGlobalRules : Nat
  serversWithAllowlists : Nat
  watchmanChannels : Nat
  totalBlockRules : Nat
  totalGlobalRules : Nat
deriving DecidableEq, Repr

/-- `getDataStats(data)`: map sizes plus `reduce`-style sums of rule-set
sizes. -/
def getDataStats (st : Store) : Stats :=
  { channelsWithRules := st.blockRules.length
    serversWithGlobalRules := st.globalBlockRules.length
    serversWithAllowlists := st.allowLists.length
    watchmanChannels := st.watchmanChannels.length
    totalBlockRules := st.blockRules.foldl (fun sum e => sum + e.2.length) 0
    totalGlobalRules := st.globalBlockRules.foldl (fun sum e => sum + e.2.length) 0 }

/-- Serialized allowlist entry: the `users`/`roles` arrays, each possibly
absent in old snapshots. -/
structure AllowSnap where
  users : Option (List String)
  roles : Option (List String)
deriving DecidableEq, Repr

/-- The on-disk snapshot shape; every top-level field may be absent in an
older snapshot. -/
structure Snapshot where
  blockRules : Option (List (String × List Str))
  globalBlockRules : Option (List (String × List Str))
  allowLists : Option (List (String × AllowSnap))
  watchmanChannels : Option (List String)
deriving DecidableEq, Repr

/-- `saveData`'s projection to the serializable form: `Object.fromEntries`
over map entries, `Array.from` over sets. -/
def serialize (st : Store) : Snapshot :=
  { blockRules := some st.blockRules
    globalBlockRules := some st.globalBlockRules
    allowLists := some (st.allowLists.map (fun e =>
      (e.1, AllowSnap.mk (some e.2.users) (some e.2.roles))))
    watchmanChannels := some st.watchmanChannels }

/-- `loadData`'s conversion of one allowlist record:
`new Set(v.users || [])`, `new Set(v.roles || [])`. -/
def deserializeAllowEntry (a : AllowSnap) : AllowEntry :=
  ⟨jsSetOfList (a.users.getD []), jsSetOfList (a.roles.getD [])⟩

/-- `loadData`'s conversion of a parsed snapshot back to maps and sets, with
`x || {}` and `x || []` defaults for absent fields. -/
def deserialize (s : Snapshot) : Store :=
  { blockRules := jsMapOfList ((s.blockRules.getD []).map (fun e =>
      (e.1, jsSetOfList e.2)))
    globalBlockRules := jsMapOfList ((s.globalBlockRules.getD []).map (fun e =>
      (e.1, jsSetOfList e.2)))
    allowLists := jsMapOfList ((s.allowLists.getD []).map (fun e =>
      (e.1, deserializeAllowEntry e.2)))
    watchmanChannels := jsSetOfList (s.watchmanChannels.getD []) }

/-- Well-formedness invariant every reachable JS store satisfies: map keys
are unique (JS `Map`) and every stored set is duplicate-free (JS `Set`). -/
def Store.WF (st : Store) : Prop :=
  (st.blockRules.map Prod.fst).Nodup
  ∧ (∀ e ∈ st.blockRules, e.2.Nodup)
  ∧ (st.globalBlockRules.map Prod.fst).Nodup
  ∧ (∀ e ∈ st.globalBlockRules, e.2.Nodup)
  ∧ (st.allowLists.map Prod.fst).Nodup
  ∧ (∀ e ∈ st.allowLists, e.2.users.Nodup ∧ e.2.roles.Nodup)
  ∧ st.watchmanChannels.Nodup

instance (st : Store) : Decidable st.WF := by
  unfold Store.WF; infer_instance

/-- `/nyd block-global`: guild-scoped twin of `addChannelRule`. -/
def addGlobalRule (st : Store) (g : String) (fragRaw : Str) : Store :=
  let frag := lowerStr fragRaw
  match mget st.globalBlockRules g with
  | none =>
    {st with globalBlockRules := st.globalBlockRules ++ [(g, jsSetInsert [] frag)]}
  | some s =>
    {st with globalBlockRules := mapUpdate st.globalBlockRules g (jsSetInsert s frag)}

lemma strIncludes_nil (h : Str) : strIncludes h [] = true := by
  cases h <;> simp [strIncludes, leadsWith]

lemma find?_isSome_of_mem {α : Type} (pred : α → Bool) :
    ∀ (l : List α) (x : α), x ∈ l → pred x = true →
      (l.find? pred).isSome = true
  | [], x, hx, _ => absurd hx (List.not_mem_nil x)
  | y :: ys, x, hx, hp => by
    by_cases h : pred y = true
    · simp [List.find?_cons_of_pos _ h]
    · rcases List.mem_cons.mp hx with rfl | hmem
      · exact absurd hp h
      · rw [List.find?_cons_of_neg _ (by simpa using h)]
        exact find?_isSome_of_mem pred ys x hmem hp

lemma mem_jsSetInsert_self {α : Type} [DecidableEq α] (s : List α) (x : α) :
    x ∈ jsSetInsert s x := by
  by_cases h : x ∈ s <;> simp [jsSetInsert, h]

lemma foldl_jsSetInsert {α : Type} [DecidableEq α] :
    ∀ (l acc : List α), l.Nodup → (∀ x ∈ l, x ∉ acc) →
      l.foldl jsSetInsert acc = acc ++ l
  | [], acc, _, _ => by simp
  | x :: xs, acc, hnd, hdisj => by
    have hx : x ∉ acc := hdisj x (by simp)
    have hxs : x ∉ xs := (List.nodup_cons.mp hnd).1
    have step : xs.foldl jsSetInsert (acc ++ [x]) = (acc ++ [x]) ++ xs :=
      foldl_jsSetInsert xs (acc ++ [x]) (List.nodup_cons.mp hnd).2
        (by
          intro y hy
          simp only [List.mem_append, List.mem_singleton]
          rintro (h1 | rfl)
          · exact hdisj y (by simp [hy]) h1
          · exact hxs hy)
    calc (x :: xs).foldl jsSetInsert acc
        = xs.foldl jsSetInsert (jsSetInsert acc x) := rfl
      _ = xs.foldl jsSetInsert (acc ++ [x]) := by rw [jsSetInsert, if_neg hx]
      _ = acc ++ x :: xs := by rw [step]; simp

lemma jsSetOfList_of_nodup {α : Type} [DecidableEq α] {l : List α}
    (h : l.Nodup) : jsSetOfList l = l := by
  have := foldl_jsSetInsert l [] h (by simp)
  simpa [jsSetOfList] using this

lemma mget_eq_none_iff {α : Type} (m : List (String × α)) (k : String) :
    mget m k = none ↔ k ∉ m.map Prod.fst := by
  induction m with
  | nil => simp [mget]
  | cons e t ih =>
    obtain ⟨k2, v⟩ := e
    by_cases h : k2 = k
    · subst h; simp [mget]
    · have hne : ¬k = k2 := fun hk => h hk.symm
      simp only [mget, if_neg h, ih, List.map_cons, List.mem_cons, not_or]
      simp [hne]

lemma foldl_jsMapInsert {α : Type} :
    ∀ (l acc : List (String × α)), (l.map Prod.fst).Nodup →
      (∀ e ∈ l, e.1 ∉ acc.map Prod.fst) →
      l.foldl (fun m e => jsMapInsert m e.1 e.2) acc = acc ++ l
  | [], acc, _, _ => by simp
  | e :: t, acc, hnd, hdisj => by
    have hk : e.1 ∉ acc.map Prod.fst := hdisj e (by simp)
    have hnone : mget acc e.1 = none := (mget_eq_none_iff acc e.1).mpr hk
    have hnd' : (t.map Prod.fst).Nodup := (List.nodup_cons.mp (by simpa using hnd)).2
    have hhd : e.1 ∉ t.map Prod.fst := (List.nodup_cons.mp (by simpa using hnd)).1
    have step : t.foldl (fun m e2 => jsMapInsert m e2.1 e2.2) (acc ++ [e])
        = (acc ++ [e]) ++ t :=
      foldl_jsMapInsert t (acc ++ [e]) hnd'
        (by
          intro e2 he2
          simp only [List.map_append, List.mem_append, List.map_cons,
            List.map_nil, List.mem_singleton]
          rintro (h1 | h1)
          · exact hdisj e2 (by simp [he2]) h1
          · exact hhd (h1 ▸ List.mem_map_of_mem Prod.fst he2))
    calc (e :: t).foldl (fun m e2 => jsMapInsert m e2.1 e2.2) acc
        = t.foldl (fun m e2 => jsMapInsert m e2.1 e2.2) (jsMapInsert acc e.1 e.2) := rfl
      _ = t.foldl (fun m e2 => jsMapInsert m e2.1 e2.2) (acc ++ [e]) := by
            simp [jsMapInsert, hnone]
      _ = acc ++ e :: t := by rw [step]; simp

lemma jsMapOfList_of_nodup {α : Type} {l : List (String × α)}
    (h : (l.map Prod.fst).Nodup) : jsMapOfList l = l := by
  have := foldl_jsMapInsert l [] h (by simp)
  simpa [jsMapOfList] using this

lemma map_eq_self {α : Type} (f : α → α) :
    ∀ (l : List α), (∀ e ∈ l, f e = e) → l.map f = l
  | [], _ => rfl
  | x :: xs, h => by
    simp only [List.map_cons]
    rw [h x (by simp), map_eq_self f xs (fun e he => h e (by simp [he]))]

lemma foldl_add_map {α : Type} (f : α → Nat) :
    ∀ (l : List α) (n : Nat),
      l.foldl (fun s e => s + f e) n = n + (l.map f).sum
  | [], n => by simp
  | x :: xs, n => by
    simp only [List.foldl_cons, List.map_cons, List.sum_cons]
    rw [foldl_add_map f xs (n + f x)]
    omega

lemma mget_append_of_none {α : Type} {m : List (String × α)} {k : String}
    (v : α) (h : mget m k = none) : mget (m ++ [(k, v)]) k = some v := by
  induction m with
  | nil => simp [mget]
  | cons e t ih =>
    obtain ⟨k2, v2⟩ := e
    by_cases hk : k2 = k
    · simp [mget, hk] at h
    · simp only [List.cons_append, mget, if_neg hk] at h ⊢
      exact ih h

lemma mget_mapUpdate_of_some {α : Type} {m : List (String × α)} {k : String}
    {w : α} (v : α) (h : mget m k = some w) :
    mget (mapUpdate m k v) k = some v := by
  induction m with
  | nil => simp [mget] at h
  | cons e t ih =>
    obtain ⟨k2, v2⟩ := e
    by_cases hk : k2 = k
    · subst hk
      simp only [mapUpdate, List.map_cons]
      simp [mget]
    · simp only [mget, if_neg hk] at h
      simp only [mapUpdate, List.map_cons, if_neg hk]
      simpa [mget, if_neg hk, mapUpdate] using ih h

lemma checkAndDeleteMessage_deletes (env : Env) (m : Msg) (frags : List Str)
    (hhttp : strIncludes (lowerStr m.content) httpChars = true)
    (hperm : env.canManage = true)
    (hdel : env.deleteSucceeds m.id = true)
    (hch : (frags.find? (fun f => strIncludes (lowerStr m.content) f)).isSome
      = true) :
    checkAndDeleteMessage env m frags = (true, [m.id]) := by
  have hne : frags.isEmpty = false := by
    cases frags with
    | nil => simp [List.find?] at hch
    | cons a l => rfl
  obtain ⟨p, hp⟩ := Option.isSome_iff_exists.mp hch
  simp [checkAndDeleteMessage, hne, hhttp, hperm, hp, hdel]

lemma handleMessage_normal (st : Store) (env : Env) (m : Msg) (g : String)
    (hbot : m.authorIsBot = false) (hc : m.content.isEmpty = false)
    (hg : m.guildId = some g) (ha : isAllowlisted st g m = false)
    (hw : st.watchmanChannels.contains m.channelId = false) :
    handleMessage st env m = normalMode st env m g := by
  have hw2 : m.channelId ∉ st.watchmanChannels := by simpa using hw
  simp [handleMessage, hbot, hc, hg, ha, hw2]

lemma normalMode_channel_delete (st : Store) (env : Env) (m : Msg)
    (g : String) (cps : List Str)
    (hcr : mget st.blockRules m.channelId = some cps)
    (hdel : checkAndDeleteMessage env m cps = (true, [m.id])) :
    normalMode st env m g = (Outcome.deleted m.id, [m.id]) := by
  simp [normalMode, hcr, hdel]

lemma normalMode_global_delete (st : Store) (env : Env) (m : Msg)
    (g : String) (gps : List Str)
    (hcr : mget st.blockRules m.channelId = none)
    (hgr : mget st.globalBlockRules g = some gps)
    (hdel : checkAndDeleteMessage env m gps = (true, [m.id])) :
    normalMode st env m g = (Outcome.deleted m.id, [m.id]) := by
  simp [normalMode, hcr, hgr, hdel]

lemma tryFrags_fail (env : Env) (mid : String) (content : Str)
    (hfail : env.deleteSucceeds mid = false) :
    ∀ fs : List Str,
      tryFrags env mid content fs =
        (false, (fs.filter (fun f => strIncludes content f)).map
          (fun _ => mid))
  | [] => rfl
  | f :: fs => by
    by_cases h : strIncludes content f = true
    · simp [tryFrags, h, hfail, tryFrags_fail env mid content hfail fs,
        List.filter_cons]
    · simp only [Bool.not_eq_true] at h
      simp [tryFrags, h, tryFrags_fail env mid content hfail fs,
        List.filter_cons]

lemma watchScan_fail_step (env : Env) (frags : List Str) (m : Msg)
    (rest : List Msg)
    (hbot : m.authorIsBot = false) (hc : m.content.isEmpty = false)
    (hhttp : strIncludes (lowerStr m.content) httpChars = true)
    (hperm : env.canManage = true)
    (hfail : env.deleteSucceeds m.id = false) :
    watchScan env frags (m :: rest) =
      ((watchScan env frags rest).1,
        (frags.filter (fun f => strIncludes (lowerStr m.content) f)).map
          (fun _ => m.id) ++ (watchScan env frags rest).2) := by
  simp [watchScan, hbot, hc, hhttp, hperm,
    tryFrags_fail env m.id (lowerStr m.content) hfail frags]

lemma isAllowlisted_congr (st1 st2 : Store) (g : String) (m : Msg)
    (h : st1.allowLists = st2.allowLists) :
    isAllowlisted st1 g m = isAllowlisted st2 g m := by
  unfold isAllowlisted
  rw [h]

lemma addChannelRule_frame (st : Store) (cid : String) (f : Str) :
    (addChannelRule st cid f).globalBlockRules = st.globalBlockRules
    ∧ (addChannelRule st cid f).allowLists = st.allowLists
    ∧ (addChannelRule st cid f).watchmanChannels = st.watchmanChannels := by
  unfold addChannelRule
  cases mget st.blockRules cid <;> simp

lemma addGlobalRule_frame (st : Store) (g : String) (f : Str) :
    (addGlobalRule st g f).blockRules = st.blockRules
    ∧ (addGlobalRule st g f).allowLists = st.allowLists
    ∧ (addGlobalRule st g f).watchmanChannels = st.watchmanChannels := by
  unfold addGlobalRule
  cases mget st.globalBlockRules g <;> simp

lemma addChannelRule_mem (st : Store) (cid : String) (fragRaw : Str) :
    ∃ s, mget (addChannelRule st cid fragRaw).blockRules cid = some s
      ∧ lowerStr fragRaw ∈ s := by
  unfold addChannelRule
  cases h : mget st.blockRules cid with
  | none =>
    exact ⟨jsSetInsert [] (lowerStr fragRaw),
      mget_append_of_none _ h, mem_jsSetInsert_self _ _⟩
  | some s =>
    exact ⟨jsSetInsert s (lowerStr fragRaw),
      mget_mapUpdate_of_some _ h, mem_jsSetInsert_self _ _⟩

lemma addGlobalRule_mem (st : Store) (g : String) (fragRaw : Str) :
    ∃ s, mget (addGlobalRule st g fragRaw).globalBlockRules g = some s
      ∧ lowerStr fragRaw ∈ s := by
  unfold addGlobalRule
  cases h : mget st.globalBlockRules g with
  | none =>
    exact ⟨jsSetInsert [] (lowerStr fragRaw),
      mget_append_of_none _ h, mem_jsSetInsert_self _ _⟩
  | some s =>
    exact ⟨jsSetInsert s (lowerStr fragRaw),
      mget_mapUpdate_of_some _ h, mem_jsSetInsert_self _ _⟩

/-- C1: if the author of a guild message is allowlisted in that guild (by
user id or by any role id), the moderation decision terminates in `skipped`
and no delete request is emitted, whatever the rule configuration, the
watchman membership and the messaging environment. -/
theorem C1_allowlist_precedence (st : Store) (env : Env) (m : Msg)
    (g : String) (hg : m.guildId = some g)
    (ha : isAllowlisted st g m = true) :
    handleMessage st env m = (Outcome.skipped, []) := by
  cases hb : m.authorIsBot with
  | true => simp [handleMessage, hb]
  | false =>
    cases hc : m.content.isEmpty with
    | true => simp [handleMessage, hb, hc]
    | false => simp [handleMessage, hb, hc, hg, ha]

def c1Store : Store :=
  ⟨[("C1", [strOf "tiktok"])], [("G1", [strOf "tiktok"])],
    [("G1", ⟨["u1"], ["r1"]⟩)], ["C9"]⟩

def c1Env : Env := ⟨true, fun _ => true, true, []⟩

def c1Msg : Msg :=
  ⟨"mA", false, "u1", [], strOf "https://tiktok.com/x", some "G1", "C1"⟩

theorem C1_witness :
    handleMessage c1Store c1Env c1Msg = (Outcome.skipped, []) :=
  C1_allowlist_precedence c1Store c1Env c1Msg "G1" rfl (by decide)

/-- C2: in normal (non-watchman) mode, a message matching both a channel
rule and a global rule is deleted exactly once: the channel rule set fires
first, its successful deletion short-circuits the global check, and the
emitted delete-request list is exactly the one message. -/
theorem C2_scope_precedence (st : Store) (env : Env) (m : Msg) (g : String)
    (cps gps : List Str)
    (hbot : m.authorIsBot = false) (hc : m.content.isEmpty = false)
    (hg : m.guildId = some g) (ha : isAllowlisted st g m = false)
    (hw : st.watchmanChannels.contains m.channelId = false)
    (hcr : mget st.blockRules m.channelId = some cps)
    (_hgr : mget st.globalBlockRules g = some gps)
    (hhttp : strIncludes (lowerStr m.content) httpChars = true)
    (hch : (cps.find? (fun f => strIncludes (lowerStr m.content) f)).isSome
      = true)
    (_hgh : (gps.find? (fun f => strIncludes (lowerStr m.content) f)).isSome
      = true)
    (hperm : env.canManage = true)
    (hdel : env.deleteSucceeds m.id = true) :
    handleMessage st env m = (Outcome.deleted m.id, [m.id]) := by
  rw [handleMessage_normal st env m g hbot hc hg ha hw]
  exact normalMode_channel_delete st env m g cps hcr
    (checkAndDeleteMessage_deletes env m cps hhttp hperm hdel hch)

def c2Store : Store :=
  ⟨[("C1", [strOf "tiktok"])], [("G1", [strOf "tiktok.com"])], [], []⟩

def c2Env : Env := ⟨true, fun _ => true, true, []⟩

def c2Msg : Msg :=
  ⟨"mB", false, "u2", [], strOf "see https://TikTok.com/x", some "G1", "C1"⟩

theorem C2_witness :
    handleMessage c2Store c2Env c2Msg = (Outcome.deleted "mB", ["mB"]) :=
  C2_scope_precedence c2Store c2Env c2Msg "G1"
    [strOf "tiktok"] [strOf "tiktok.com"]
    rfl rfl rfl (by decide) rfl rfl rfl (by decide) (by decide) (by decide)
    rfl rfl

/-- C3: the "http" pre-filter: a message whose lowercased text does not
contain the substring "http" produces no match from the match engine, is
never deleted by `checkAndDeleteMessage`, and contributes nothing to a
watchman window scan; and an empty rule set never produces a match. -/
theorem C3_prefilter (env : Env) (m : Msg) (rs : List Str) (rest : List Msg)
    (h : strIncludes (lowerStr m.content) httpChars = false) :
    matchEngine m.content rs = none
    ∧ checkAndDeleteMessage env m rs = (false, [])
    ∧ watchScan env rs (m :: rest) = watchScan env rs rest
    ∧ ∀ t : Str, matchEngine t [] = none := by
  refine ⟨?_, ?_, ?_, ?_⟩
  · cases he : rs.isEmpty <;> simp [matchEngine, he, h]
  · cases he : rs.isEmpty <;> simp [checkAndDeleteMessage, he, h]
  · cases hb : m.authorIsBot with
    | true => simp [watchScan, hb]
    | false =>
      cases hc : m.content.isEmpty with
      | true => simp [watchScan, hb, hc]
      | false => simp [watchScan, hb, hc, h]
  · intro t
    simp [matchEngine]

def c3Env : Env := ⟨true, fun _ => true, true, []⟩

def c3Msg : Msg :=
  ⟨"mC", false, "u3", [], strOf "tiktok.com and more tiktok", some "G1", "C1"⟩

theorem C3_witness :
    matchEngine c3Msg.content [strOf "tiktok"] = none
    ∧ checkAndDeleteMessage c3Env c3Msg [strOf "tiktok"] = (false, [])
    ∧ watchScan c3Env [strOf "tiktok"] [c3Msg]
        = watchScan c3Env [strOf "tiktok"] []
    ∧ matchEngine (strOf "http x") [] = none := by
  have h := C3_prefilter c3Env c3Msg [strOf "tiktok"] [] (by decide)
  exact ⟨h.1, h.2.1, h.2.2.1, h.2.2.2 (strOf "http x")⟩

def c4m1 : Msg :=
  ⟨"m1", false, "u1", [], strOf "https://tiktok.com/a", some "G1", "C1"⟩

def c4m2 : Msg :=
  ⟨"m2", false, "u2", [], strOf "https://tiktok.com/b", some "G1", "C1"⟩

def c4Env : Env := ⟨true, fun i => i == "m2", true, [c4m1, c4m2]⟩

/-- C4 counterexample: in a watchman scan whose first window member matches
a rule but whose delete fails at the messaging boundary, the scan does not
stop: it falls through to the second window member and deletes it (delete
requests are emitted for both). -/
theorem C4_counterexample :
    c4Env.deleteSucceeds c4m1.id = false
    ∧ strIncludes (lowerStr c4m1.content) (strOf "tiktok") = true
    ∧ checkMultipleMessages c4Env [strOf "tiktok"] 6
        = (some "m2", ["m1", "m2"]) :=
  ⟨by decide, by decide, by decide⟩

/-- C4 (amended): when the delete of a window member fails, the watchman
scan continues instead of stopping: the failing message contributes one
delete request per matching rule and the scan proceeds to the remaining
window members, whose result is unchanged. -/
theorem C4_scan_continues (env : Env) (frags : List Str) (m : Msg)
    (rest : List Msg)
    (hbot : m.authorIsBot = false) (hc : m.content.isEmpty = false)
    (hhttp : strIncludes (lowerStr m.content) httpChars = true)
    (hperm : env.canManage = true)
    (hfail : env.deleteSucceeds m.id = false) :
    watchScan env frags (m :: rest) =
      ((watchScan env frags rest).1,
        (frags.filter (fun f => strIncludes (lowerStr m.content) f)).map
          (fun _ => m.id) ++ (watchScan env frags rest).2) :=
  watchScan_fail_step env frags m rest hbot hc hhttp hperm hfail

theorem C4_witness :
    watchScan c4Env [strOf "tiktok"] [c4m1, c4m2] =
      ((watchScan c4Env [strOf "tiktok"] [c4m2]).1,
        (([strOf "tiktok"]).filter
          (fun f => strIncludes (lowerStr c4m1.content) f)).map
          (fun _ => c4m1.id) ++ (watchScan c4Env [strOf "tiktok"] [c4m2]).2) :=
  C4_scan_continues c4Env [strOf "tiktok"] c4m1 [c4m2]
    rfl rfl (by decide) rfl (by decide)

/-- C5: persistence round-trip: deserializing the serialized snapshot of
any well-formed store (unique map keys, duplicate-free sets, as every store
built from JS `Map`/`Set` is) reproduces the store exactly: same keys, same
set memberships, same watchman membership. -/
theorem C5_round_trip (st : Store) (hwf : st.WF) :
    deserialize (serialize st) = st := by
  obtain ⟨h1, h2, h3, h4, h5, h6, h7⟩ := hwf
  have hb : (st.blockRules.map (fun e => (e.1, jsSetOfList e.2)))
      = st.blockRules :=
    map_eq_self _ st.blockRules (fun e he => by
      rw [jsSetOfList_of_nodup (h2 e he)])
  have hgb : (st.globalBlockRules.map (fun e => (e.1, jsSetOfList e.2)))
      = st.globalBlockRules :=
    map_eq_self _ st.globalBlockRules (fun e he => by
      rw [jsSetOfList_of_nodup (h4 e he)])
  have hal : ((st.allowLists.map (fun e =>
        (e.1, AllowSnap.mk (some e.2.users) (some e.2.roles)))).map
        (fun e => (e.1, deserializeAllowEntry e.2)))
      = st.allowLists := by
    rw [List.map_map]
    exact map_eq_self _ st.allowLists (fun e he => by
      simp only [Function.comp_apply, deserializeAllowEntry, Option.getD_some]
      rw [jsSetOfList_of_nodup (h6 e he).1, jsSetOfList_of_nodup (h6 e he).2])
  simp only [deserialize, serialize, Option.getD_some]
  rw [hb, hgb, hal, jsMapOfList_of_nodup h1, jsMapOfList_of_nodup h3,
    jsMapOfList_of_nodup h5, jsSetOfList_of_nodup h7]

def c5Store : Store :=
  ⟨[("C1", [strOf "tiktok", strOf "x.y"]), ("C2", [])],
    [("G1", [strOf "discord.gg"])],
    [("G1", ⟨["u1", "u2"], ["r1"]⟩), ("G2", ⟨[], []⟩)],
    ["C1", "C7"]⟩

theorem C5_witness : c5Store.WF ∧ deserialize (serialize c5Store) = c5Store :=
  ⟨by decide, C5_round_trip c5Store (by decide)⟩

/-- C6: forward compatibility of deserialization: each absent top-level
snapshot field (and each absent `users`/`roles` member of an allowlist
record) defaults to an empty collection, and a completely empty snapshot
deserializes to the empty store. -/
theorem C6_forward_compat :
    (∀ s : Snapshot, s.blockRules = none → (deserialize s).blockRules = [])
    ∧ (∀ s : Snapshot, s.globalBlockRules = none →
        (deserialize s).globalBlockRules = [])
    ∧ (∀ s : Snapshot, s.allowLists = none → (deserialize s).allowLists = [])
    ∧ (∀ s : Snapshot, s.watchmanChannels = none →
        (deserialize s).watchmanChannels = [])
    ∧ (∀ a : AllowSnap, a.users = none → (deserializeAllowEntry a).users = [])
    ∧ (∀ a : AllowSnap, a.roles = none → (deserializeAllowEntry a).roles = [])
    ∧ deserialize ⟨none, none, none, none⟩ = ⟨[], [], [], []⟩ := by
  refine ⟨?_, ?_, ?_, ?_, ?_, ?_, ?_⟩
  · intro s h; simp [deserialize, h, jsMapOfList]
  · intro s h; simp [deserialize, h, jsMapOfList]
  · intro s h; simp [deserialize, h, jsMapOfList]
  · intro s h; simp [deserialize, h, jsSetOfList]
  · intro a h; simp [deserializeAllowEntry, h, jsSetOfList]
  · intro a h; simp [deserializeAllowEntry, h, jsSetOfList]
  · simp [deserialize, jsMapOfList, jsSetOfList]

theorem C6_witness :
    (deserialize ⟨some [("C1", [strOf "tiktok"])], some [],
      some [("G1", AllowSnap.mk (some ["u1"]) none)], none⟩).watchmanChannels
      = []
    ∧ (deserializeAllowEntry (AllowSnap.mk (some ["u1"]) none)).roles = [] :=
  ⟨C6_forward_compat.2.2.2.1 _ rfl, C6_forward_compat.2.2.2.2.2.1 _ rfl⟩

/-- C7 counterexample: removing a user from the allowlist of a guild that
has no allowlist entry is not a pure no-op: `ensureAllowlist` runs before
the membership check and creates an empty allowlist entry for the guild, so
the store changes even though the command reports not-found and nothing is
saved. -/
theorem C7_counterexample :
    (disallowUser ⟨[], [], [], []⟩ "G1" "u1").store ≠ ⟨[], [], [], []⟩
    ∧ disallowUser ⟨[], [], [], []⟩ "G1" "u1"
        = ⟨⟨[], [], [("G1", ⟨[], []⟩)], []⟩, false, false⟩ :=
  ⟨by decide, by decide⟩

/-- C7 (amended): not-found removals: `removeChannelRule` and
`removeGlobalRule` on a missing rule set or absent partial report not-found
and leave the store unchanged with no save; `disallowUser` and
`disallowRole` on an absent member report not-found with no save and modify
no set, but when the guild has no allowlist entry they first create an
empty one (in memory only, since no save runs). -/
theorem C7_notfound_removals :
    (∀ (st : Store) (cid : String) (frag : Str),
      mget st.blockRules cid = none →
      removeChannelRule st cid frag = ⟨st, false, false⟩)
    ∧ (∀ (st : Store) (cid : String) (frag : Str) (s : List Str),
        mget st.blockRules cid = some s → lowerStr frag ∉ s →
        removeChannelRule st cid frag = ⟨st, false, false⟩)
    ∧ (∀ (st : Store) (g : String) (frag : Str),
        mget st.globalBlockRules g = none →
        removeGlobalRule st g frag = ⟨st, false, false⟩)
    ∧ (∀ (st : Store) (g : String) (frag : Str) (s : List Str),
        mget st.globalBlockRules g = some s → lowerStr frag ∉ s →
        removeGlobalRule st g frag = ⟨st, false, false⟩)
    ∧ (∀ (st : Store) (g u : String) (a : AllowEntry),
        mget st.allowLists g = some a → a.users.contains u = false →
        disallowUser st g u = ⟨st, false, false⟩)
    ∧ (∀ (st : Store) (g u : String),
        mget st.allowLists g = none →
        disallowUser st g u
          = ⟨{st with allowLists := st.allowLists ++ [(g, ⟨[], []⟩)]},
              false, false⟩)
    ∧ (∀ (st : Store) (g r : String) (a : AllowEntry),
        mget st.allowLists g = some a → a.roles.contains r = false →
        disallowRole st g r = ⟨st, false, false⟩)
    ∧ (∀ (st : Store) (g r : String),
        mget st.allowLists g = none →
        disallowRole st g r
          = ⟨{st with allowLists := st.allowLists ++ [(g, ⟨[], []⟩)]},
              false, false⟩) := by
  refine ⟨?_, ?_, ?_, ?_, ?_, ?_, ?_, ?_⟩
  · intro st cid frag h; simp [removeChannelRule, h]
  · intro st cid frag s h hmem; simp [removeChannelRule, h, hmem]
  · intro st g frag h; simp [removeGlobalRule, h]
  · intro st g frag s h hmem; simp [removeGlobalRule, h, hmem]
  · intro st g u a h hmem
    have hm2 : u ∉ a.users := by simpa using hmem
    simp [disallowUser, ensureAllowlist, h, hm2]
  · intro st g u h; simp [disallowUser, ensureAllowlist, h]
  · intro st g r a h hmem
    have hm2 : r ∉ a.roles := by simpa using hmem
    simp [disallowRole, ensureAllowlist, h, hm2]
  · intro st g r h; simp [disallowRole, ensureAllowlist, h]

theorem C7_witness :
    removeChannelRule ⟨[("C1", [strOf "tiktok"])], [], [], []⟩ "C1"
        (strOf "reddit")
      = ⟨⟨[("C1", [strOf "tiktok"])], [], [], []⟩, false, false⟩
    ∧ removeGlobalRule ⟨[], [], [], []⟩ "G1" (strOf "x")
      = ⟨⟨[], [], [], []⟩, false, false⟩
    ∧ disallowUser ⟨[], [], [("G1", ⟨["u2"], []⟩)], []⟩ "G1" "u1"
      = ⟨⟨[], [], [("G1", ⟨["u2"], []⟩)], []⟩, false, false⟩ :=
  ⟨C7_notfound_removals.2.1 _ "C1" (strOf "reddit") [strOf "tiktok"]
      rfl (by decide),
    C7_notfound_removals.2.2.1 _ "G1" (strOf "x") rfl,
    C7_notfound_removals.2.2.2.2.1 _ "G1" "u1" ⟨["u2"], []⟩ rfl (by decide)⟩

/-- C8 counterexample: `/nyd list-allow` is not a pure read: on a guild
with no allowlist entry it calls `ensureAllowlist`, which creates an empty
entry, so the store changes. -/
theorem C8_counterexample :
    (listAllowlist ⟨[], [], [], []⟩ "G1").1 ≠ ⟨[], [], [], []⟩
    ∧ listAllowlist ⟨[], [], [], []⟩ "G1"
        = (⟨[], [], [("G1", ⟨[], []⟩)], []⟩, ⟨[], []⟩) :=
  ⟨by decide, by decide⟩

/-- C8 (amended): `listChannelRules` and `listGlobalRules` are pure reads
returning empty collections when the key is absent; `listAllowlist` returns
empty user/role sets for a guild with no entry, but as a side effect it
creates an empty allowlist entry for that guild (in memory only, never
persisted by the list command). -/
theorem C8_list_reads :
    (∀ (st : Store) (cid : String),
      listChannelRules st cid = (st, (mget st.blockRules cid).getD []))
    ∧ (∀ (st : Store) (cid : String),
        mget st.blockRules cid = none → (listChannelRules st cid).2 = [])
    ∧ (∀ (st : Store) (g : String),
        listGlobalRules st g = (st, (mget st.globalBlockRules g).getD []))
    ∧ (∀ (st : Store) (g : String),
        mget st.globalBlockRules g = none → (listGlobalRules st g).2 = [])
    ∧ (∀ (st : Store) (g : String) (a : AllowEntry),
        mget st.allowLists g = some a → listAllowlist st g = (st, a))
    ∧ (∀ (st : Store) (g : String),
        mget st.allowLists g = none →
        listAllowlist st g
          = ({st with allowLists := st.allowLists ++ [(g, ⟨[], []⟩)]},
              ⟨[], []⟩)) := by
  refine ⟨?_, ?_, ?_, ?_, ?_, ?_⟩
  · intro st cid; rfl
  · intro st cid h; simp [listChannelRules, h]
  · intro st g; rfl
  · intro st g h; simp [listGlobalRules, h]
  · intro st g a h; simp [listAllowlist, ensureAllowlist, h]
  · intro st g h; simp [listAllowlist, ensureAllowlist, h]

theorem C8_witness :
    listChannelRules ⟨[], [], [], []⟩ "C1" = (⟨[], [], [], []⟩, [])
    ∧ (listGlobalRules ⟨[], [], [], []⟩ "G1").2 = []
    ∧ listAllowlist ⟨[], [], [("G1", ⟨["u1"], []⟩)], []⟩ "G1"
        = (⟨[], [], [("G1", ⟨["u1"], []⟩)], []⟩, ⟨["u1"], []⟩) :=
  ⟨C8_list_reads.1 _ "C1",
    C8_list_reads.2.2.2.1 _ "G1" rfl,
    C8_list_reads.2.2.2.2.1 _ "G1" ⟨["u1"], []⟩ rfl⟩

/-- C9: `getDataStats` returns exactly six values: the number of channel
keys in `blockRules`, of guild keys in `globalBlockRules`, of guild keys in
`allowLists`, of watchman channels, and the sums of the channel and global
rule-set sizes; a channel whose rule set is empty still counts as a
"channel with rules" (it adds one to the count and nothing to the sum). -/
theorem C9_stats_contract (st : Store) (c : String) :
    getDataStats st =
      ⟨st.blockRules.length, st.globalBlockRules.length,
        st.allowLists.length, st.watchmanChannels.length,
        (st.blockRules.map (fun e => e.2.length)).sum,
        (st.globalBlockRules.map (fun e => e.2.length)).sum⟩
    ∧ Stats.channelsWithRules
        (getDataStats {st with blockRules := st.blockRules ++ [(c, [])]})
        = (getDataStats st).channelsWithRules + 1
    ∧ Stats.totalBlockRules
        (getDataStats {st with blockRules := st.blockRules ++ [(c, [])]})
        = (getDataStats st).totalBlockRules := by
  refine ⟨?_, ?_, ?_⟩
  · simp [getDataStats, foldl_add_map]
  · simp [getDataStats]
  · simp [getDataStats, foldl_add_map]

/-- C10: once the empty string is a blocked partial of a channel (via the
block command) or of a guild (via the global block command), any non-bot,
non-allowlisted message in that scope whose lowercased text contains "http"
matches (the empty string is a substring of every text) and is deleted in
normal mode, assuming delete permission and a successful delete. -/
theorem C10_empty_partial (st : Store) (env : Env) (m : Msg) (g : String)
    (hbot : m.authorIsBot = false) (hc : m.content.isEmpty = false)
    (hg : m.guildId = some g) (ha : isAllowlisted st g m = false)
    (hw : st.watchmanChannels.contains m.channelId = false)
    (hhttp : strIncludes (lowerStr m.content) httpChars = true)
    (hperm : env.canManage = true)
    (hdel : env.deleteSucceeds m.id = true) :
    handleMessage (addChannelRule st m.channelId []) env m
      = (Outcome.deleted m.id, [m.id])
    ∧ (mget st.blockRules m.channelId = none →
        handleMessage (addGlobalRule st g []) env m
          = (Outcome.deleted m.id, [m.id])) := by
  constructor
  · obtain ⟨s, hs, hmem⟩ := addChannelRule_mem st m.channelId []
    obtain ⟨hf1, hf2, hf3⟩ := addChannelRule_frame st m.channelId []
    have ha2 : isAllowlisted (addChannelRule st m.channelId []) g m = false :=
      (isAllowlisted_congr _ st g m hf2).trans ha
    have hw2 : (addChannelRule st m.channelId []).watchmanChannels.contains
        m.channelId = false := by rw [hf3]; exact hw
    rw [handleMessage_normal _ env m g hbot hc hg ha2 hw2]
    refine normalMode_channel_delete _ env m g s hs
      (checkAndDeleteMessage_deletes env m s hhttp hperm hdel ?_)
    exact find?_isSome_of_mem _ s [] hmem (strIncludes_nil _)
  · intro hcr
    obtain ⟨s, hs, hmem⟩ := addGlobalRule_mem st g []
    obtain ⟨hf1, hf2, hf3⟩ := addGlobalRule_frame st g []
    have ha2 : isAllowlisted (addGlobalRule st g []) g m = false :=
      (isAllowlisted_congr _ st g m hf2).trans ha
    have hw2 : (addGlobalRule st g []).watchmanChannels.contains
        m.channelId = false := by rw [hf3]; exact hw
    have hcr2 : mget (addGlobalRule st g []).blockRules m.channelId = none := by
      rw [hf1]; exact hcr
    rw [handleMessage_normal _ env m g hbot hc hg ha2 hw2]
    refine normalMode_global_delete _ env m g s hcr2 hs
      (checkAndDeleteMessage_deletes env m s hhttp hperm hdel ?_)
    exact find?_isSome_of_mem _ s [] hmem (strIncludes_nil _)

def c10Store : Store := ⟨[], [], [], []⟩

def c10Env : Env := ⟨true, fun _ => true, true, []⟩

def c10Msg : Msg :=
  ⟨"mE", false, "u5", [], strOf "a plain http link", some "G1", "C1"⟩

theorem C10_witness :
    handleMessage (addChannelRule c10Store "C1" []) c10Env c10Msg
      = (Outcome.deleted "mE", ["mE"])
    ∧ handleMessage (addGlobalRule c10Store "G1" []) c10Env c10Msg
      = (Outcome.deleted "mE", ["mE"]) :=
  have h := C10_empty_partial c10Store c10Env c10Msg "G1"
    rfl rfl rfl rfl rfl (by decide) rfl rfl
  ⟨h.1, h.2 rfl⟩

end NYD

